import Mathlib

/-!
# Verification of the package-dependency extractor

Shallow embedding of the core of `package-dependencies.ts` from the
java-dependency-mapper repository.  JavaScript strings are modelled as
`List Char`; a JavaScript `Map` is modelled as an association list that keeps
insertion order and has at most one entry per key (exactly the iteration
semantics of a JS `Map`); a JavaScript `Set` is modelled as a duplicate-free
list in insertion order.  All definitions are executable so that concrete runs
can be evaluated inside proofs.
-/

set_option maxHeartbeats 1000000
set_option maxRecDepth 100000

/-- JavaScript strings, modelled as lists of characters. -/
abbrev JStr := List Char

/-- Turn a Lean string literal into the `JStr` model. -/
def strL (s : String) : JStr := s.data

/-- Model of JavaScript `String.prototype.lastIndexOf(c)`: index of the last
occurrence of `c`, or `-1` when `c` does not occur. -/
def jsLastIndexOf (cs : JStr) (c : Char) : Int :=
  match cs with
  | [] => -1
  | x :: rest =>
    let r := jsLastIndexOf rest c
    if 0 ≤ r then r + 1 else if x = c then 0 else -1

/-- Model of JavaScript `hay.startsWith(needle)`. -/
def jsStartsWith (hay needle : JStr) : Bool :=
  match hay, needle with
  | _, [] => true
  | [], _ :: _ => false
  | h :: hs, n :: ns => h = n && jsStartsWith hs ns

/-- Model of JavaScript `hay.includes(needle)` (substring containment). -/
def jsIncludes (hay needle : JStr) : Bool :=
  match hay with
  | [] => jsStartsWith [] needle
  | _ :: rest => jsStartsWith hay needle || jsIncludes rest needle

/-- Model of JavaScript `s.split('.')`: split at every dot, keeping empty
pieces; the empty string yields one empty piece. -/
def splitOnDot : JStr → List JStr
  | [] => [[]]
  | c :: rest =>
    match splitOnDot rest with
    | [] => [[c]]
    | p :: ps => if c = '.' then [] :: p :: ps else (c :: p) :: ps

/-- Model of JavaScript `segments.join('.')`. -/
def joinDot (xs : List JStr) : JStr := List.intercalate ['.'] xs

/-- Model of JavaScript `Set.prototype.add`: append the element unless it is
already present. -/
def setAdd (s : List JStr) (x : JStr) : List JStr :=
  if x ∈ s then s else s ++ [x]

/-- Model of JavaScript `Map.prototype.get`: the value stored at the first
(and, for the maps built here, only) entry with the given key. -/
def jsMapGet {v : Type} (m : List (JStr × v)) (key : JStr) : Option v :=
  match m with
  | [] => none
  | (k, val) :: rest => if k = key then some val else jsMapGet rest key

/-- Model of JavaScript `Map.prototype.set`: update the existing entry in
place, or append a new entry at the end. -/
def jsMapSet {v : Type} (m : List (JStr × v)) (key : JStr) (val : v) :
    List (JStr × v) :=
  match m with
  | [] => [(key, val)]
  | (k, v0) :: rest =>
    if k = key then (key, val) :: rest else (k, v0) :: jsMapSet rest key val

/-- The recurring source idiom
`if (!m.has(k)) m.set(k, new Set()); m.get(k)!.add(x)`:
insert `x` into the set stored at `k`, creating the set when absent. -/
def addToMapSet (m : List (JStr × List JStr)) (key x : JStr) :
    List (JStr × List JStr) :=
  match jsMapGet m key with
  | some s => jsMapSet m key (setAdd s x)
  | none => jsMapSet m key (setAdd [] x)

/-- The four fields of an input record that the core reads
(`interface DependencyRecord`; the remaining fields are never consulted). -/
structure DependencyRecord where
  sourceClass : JStr
  targetClass : JStr
  artifactId : JStr
  artifactGroup : JStr
  deriving DecidableEq, Repr

/-- `interface PackageInfo` from the source. -/
structure PackageInfo where
  name : JStr
  classes : List JStr
  isExternal : Bool
  deriving DecidableEq, Repr

/-- The mutable state of `class PackageDependencyExtractor`. -/
structure ExtractorState where
  packageMap : List (JStr × PackageInfo)
  dependencyMap : List (JStr × List JStr)
  artifactMap : List (JStr × List JStr)
  basePackageDependencyMap : List (JStr × List JStr)
  libraryCounts : List (JStr × List JStr)
  librariesToCount : List JStr
  deriving DecidableEq, Repr

/-- Default library keywords from the constructor. -/
def defaultLibraries : List JStr :=
  [strL "struts", strL "commons", strL "log4j", strL "cryptix"]

/-- The constructor: empty maps, one empty counter set per library keyword. -/
def initState (librariesToCount : List JStr) : ExtractorState :=
  { packageMap := []
    dependencyMap := []
    artifactMap := []
    basePackageDependencyMap := []
    libraryCounts := librariesToCount.map (fun lib => (lib, []))
    librariesToCount := librariesToCount }

/-- The array-signature test used by `getPackageName` / `getClassName`:
`className.startsWith("[L") && className.endsWith(";")`. -/
def isArraySig (cs : JStr) : Bool :=
  jsStartsWith cs (strL "[L") && cs.getLast? = some ';'

/-- The unwrapping step shared by `getPackageName` and `getClassName`:
`className.substring(2, className.length - 1)` under the array-signature
test, the name itself otherwise. -/
def unwrapName (cs : JStr) : JStr :=
  if isArraySig cs then (cs.drop 2).dropLast else cs

/-- `getPackageName` from the source: unwrap, then
`lastDotIndex > 0 ? processedName.substring(0, lastDotIndex) : ''`. -/
def getPackageName (className : JStr) : JStr :=
  let processedName := unwrapName className
  let lastDotIndex := jsLastIndexOf processedName '.'
  if 0 < lastDotIndex then processedName.take lastDotIndex.toNat else []

/-- `getClassName` from the source: unwrap, then
`lastDotIndex > 0 ? processedName.substring(lastDotIndex + 1) : processedName`. -/
def getClassName (className : JStr) : JStr :=
  let processedName := unwrapName className
  let lastDotIndex := jsLastIndexOf processedName '.'
  if 0 < lastDotIndex then processedName.drop (lastDotIndex.toNat + 1)
  else processedName

/-- `addPackage` from the source: create the entry (with the supplied
`isExternal` flag) when the package is unseen, then insert the class name
into its class set.  An existing entry keeps its original flag. -/
def addPackage (m : List (JStr × PackageInfo)) (packageName className : JStr)
    (isExternal : Bool) : List (JStr × PackageInfo) :=
  match jsMapGet m packageName with
  | none =>
    jsMapSet m packageName
      { name := packageName, classes := setAdd [] className, isExternal }
  | some info =>
    jsMapSet m packageName
      { info with classes := setAdd info.classes className }

/-- One keyword check of `countSpecificLibraries`: when the lower-cased target
class contains the keyword, add the original target class to its set. -/
def countStep (lcTargetClass targetClass : JStr)
    (acc : List (JStr × List JStr)) (library : JStr) : List (JStr × List JStr) :=
  if jsIncludes lcTargetClass library then addToMapSet acc library targetClass
  else acc

/-- `countSpecificLibraries` from the source: lower-case the target class and,
for every configured keyword it contains, add the original target class to
that keyword's set. -/
def countSpecificLibraries (counts : List (JStr × List JStr))
    (librariesToCount : List JStr) (targetClass : JStr) :
    List (JStr × List JStr) :=
  librariesToCount.foldl (countStep (targetClass.map Char.toLower) targetClass)
    counts

/-- `processRecord` from the source. -/
def processRecord (s : ExtractorState) (record : DependencyRecord) :
    ExtractorState :=
  let sourcePackage := getPackageName record.sourceClass
  let sourceClassName := getClassName record.sourceClass
  let s1 := { s with
    packageMap := addPackage s.packageMap sourcePackage sourceClassName false }
  let targetPackage := getPackageName record.targetClass
  let targetClassName := getClassName record.targetClass
  let isExternal := !jsStartsWith record.targetClass record.artifactGroup
  let s2 := { s1 with
    packageMap := addPackage s1.packageMap targetPackage targetClassName isExternal }
  let s3 :=
    if sourcePackage ≠ targetPackage then
      { s2 with
        dependencyMap := addToMapSet s2.dependencyMap sourcePackage targetPackage }
    else s2
  let s4 := { s3 with
    artifactMap :=
      addToMapSet (addToMapSet s3.artifactMap record.artifactId sourcePackage)
        record.artifactId targetPackage }
  { s4 with
    libraryCounts :=
      countSpecificLibraries s4.libraryCounts s.librariesToCount record.targetClass }

/-- The literal list `["java", "javax", "org", "com", "net"]` from
`getBasePackages`. -/
def standardTopLevel : List JStr :=
  [strL "java", strL "javax", strL "org", strL "com", strL "net"]

/-- The base-package expression inside `getBasePackages`: two segments for a
standard first segment, up to three otherwise. -/
def codeBaseOf (segments : List JStr) : JStr :=
  if standardTopLevel.contains segments.head! then joinDot (segments.take 2)
  else joinDot (segments.take (min 3 segments.length))

/-- The loop body of `getBasePackages`: skip names with fewer than two
dot-separated segments, collect the rest under their base package. -/
def gbpStep (basePackages : List (JStr × List JStr))
    (entry : JStr × PackageInfo) : List (JStr × List JStr) :=
  let segments := splitOnDot entry.1
  if 2 ≤ segments.length then
    addToMapSet basePackages (codeBaseOf segments) entry.1
  else basePackages

/-- `getBasePackages` from the source: iterate the package map in insertion
order, grouping each eligible fine package name under its base package. -/
def getBasePackages (packageMap : List (JStr × PackageInfo)) :
    List (JStr × List JStr) :=
  packageMap.foldl gbpStep []

/-- The fine-package-to-base-package map built at the start of
`buildBasePackageDependencies`. -/
def packageToBaseMap (basePackages : List (JStr × List JStr)) :
    List (JStr × JStr) :=
  basePackages.foldl
    (fun acc entry =>
      entry.2.foldl (fun acc2 subPackage => jsMapSet acc2 subPackage entry.1) acc)
    []

/-- The inner loop body of `buildBasePackageDependencies`: a target with a
base distinct from the source's base is inserted into the source's base-level
target set.  A source with a base first receives an (initially empty) entry;
base-package names always contain a dot, hence are never the empty string, so
the source's JavaScript truthiness tests coincide with map presence. -/
def rollupInner (p2b : List (JStr × JStr)) (sourceBasePackage : JStr)
    (acc : List (JStr × List JStr)) (targetPackage : JStr) :
    List (JStr × List JStr) :=
  match jsMapGet p2b targetPackage with
  | none => acc
  | some targetBasePackage =>
    if sourceBasePackage ≠ targetBasePackage then
      addToMapSet acc sourceBasePackage targetBasePackage
    else acc

/-- One iteration of the outer loop of `buildBasePackageDependencies`. -/
def rollupStep (p2b : List (JStr × JStr)) (bpdm : List (JStr × List JStr))
    (entry : JStr × List JStr) : List (JStr × List JStr) :=
  match jsMapGet p2b entry.1 with
  | none => bpdm
  | some sourceBasePackage =>
    let bpdm1 :=
      if (jsMapGet bpdm sourceBasePackage).isNone then
        jsMapSet bpdm sourceBasePackage []
      else bpdm
    entry.2.foldl (rollupInner p2b sourceBasePackage) bpdm1

/-- The edge projection of `buildBasePackageDependencies`. -/
def rollupEdges (p2b : List (JStr × JStr)) (dependencyMap : List (JStr × List JStr))
    (init : List (JStr × List JStr)) : List (JStr × List JStr) :=
  dependencyMap.foldl (rollupStep p2b) init

/-- `buildBasePackageDependencies` from the source. -/
def buildBasePackageDependencies (s : ExtractorState) : ExtractorState :=
  { s with
    basePackageDependencyMap :=
      rollupEdges (packageToBaseMap (getBasePackages s.packageMap))
        s.dependencyMap s.basePackageDependencyMap }

/-- `parseJsonlFile` restricted to the already-decoded records: process each
record in order, then build the base-package dependency map once. -/
def runExtractor (librariesToCount : List JStr)
    (records : List DependencyRecord) : ExtractorState :=
  buildBasePackageDependencies (records.foldl processRecord (initState librariesToCount))

/-- Strict lexicographic comparison on UTF-32 scalar values, the order used by
JavaScript default string sorting on the names occurring here. -/
def strLt : JStr → JStr → Bool
  | [], [] => false
  | [], _ :: _ => true
  | _ :: _, [] => false
  | a :: as, b :: bs => a.val < b.val || (a = b && strLt as bs)

/-- Stable insertion step for lexicographic sorting of strings. -/
def insertStr (x : JStr) : List JStr → List JStr
  | [] => [x]
  | y :: ys => if strLt x y then x :: y :: ys else y :: insertStr x ys

/-- Model of JavaScript `Array.prototype.sort()` on string arrays (stable,
lexicographic). -/
def sortStrings (xs : List JStr) : List JStr := xs.foldr insertStr []

/-- Stable insertion step for sorting map entries by key
(the `localeCompare`-based sort in the report). -/
def insertByKey (x : JStr × List JStr) :
    List (JStr × List JStr) → List (JStr × List JStr)
  | [] => [x]
  | y :: ys => if strLt x.1 y.1 then x :: y :: ys else y :: insertByKey x ys

/-- Sort map entries by key, keeping each entry's value. -/
def sortByKey (m : List (JStr × List JStr)) : List (JStr × List JStr) :=
  m.foldr insertByKey []

/-- The per-base-package block of the report
(the data rendered by the Package Details section). -/
structure BasePackageDetail where
  isExternalDep : Bool
  subPackageCount : Nat
  classCount : Nat
  dependencies : List JStr
  subPackages : List JStr
  deriving DecidableEq, Repr

/-- The structured report assembled by `generateMarkdownOutput`, stripped of
Markdown formatting: the library-count table, the external/internal partition
of the sorted base packages, the sorted dependency edge list, and the
per-base-package details. -/
structure ReportModel where
  libraryTable : List (JStr × Nat)
  externalBasePackages : List JStr
  internalBasePackages : List JStr
  dependencyEdges : List (JStr × List JStr)
  details : List (JStr × BasePackageDetail)
  deriving DecidableEq, Repr

/-- The external test from the report: a base package is external when some
member fine package was registered external. -/
def baseIsExternal (packageMap : List (JStr × PackageInfo))
    (basePackages : List (JStr × List JStr)) (basePackage : JStr) : Bool :=
  match jsMapGet basePackages basePackage with
  | some subs =>
    subs.any (fun pkg =>
      match jsMapGet packageMap pkg with
      | some info => info.isExternal
      | none => false)
  | none => false

/-- The class total of the Package Details section: class-set sizes summed
over the member fine packages, not deduplicated across them. -/
def baseClassCount (packageMap : List (JStr × PackageInfo))
    (subs : List JStr) : Nat :=
  subs.foldl
    (fun n pkg =>
      match jsMapGet packageMap pkg with
      | some info => n + info.classes.length
      | none => n)
    0

/-- The report model extracted from a final extractor state, mirroring the
data flow of `generateMarkdownOutput`. -/
def reportModel (s : ExtractorState) : ReportModel :=
  let basePackages := getBasePackages s.packageMap
  let sortedBasePackages := sortStrings (basePackages.map (fun e => e.1))
  let externalPackages :=
    sortedBasePackages.filter (fun b => baseIsExternal s.packageMap basePackages b)
  let internalPackages :=
    sortedBasePackages.filter (fun b => !baseIsExternal s.packageMap basePackages b)
  { libraryTable := s.libraryCounts.map (fun e => (e.1, e.2.length))
    externalBasePackages := externalPackages
    internalBasePackages := internalPackages
    dependencyEdges :=
      (sortByKey s.basePackageDependencyMap).map (fun e => (e.1, sortStrings e.2))
    details :=
      sortedBasePackages.map (fun basePackage =>
        let subs := (jsMapGet basePackages basePackage).getD []
        (basePackage,
          { isExternalDep := baseIsExternal s.packageMap basePackages basePackage
            subPackageCount := subs.length
            classCount := baseClassCount s.packageMap subs
            dependencies :=
              match jsMapGet s.basePackageDependencyMap basePackage with
              | some deps => deps
              | none => []
            subPackages := sortStrings subs })) }

/-! ## Basic lemmas about the JavaScript container models -/

theorem mem_setAdd {s : List JStr} {x y : JStr} :
    y ∈ setAdd s x ↔ y = x ∨ y ∈ s := by
  unfold setAdd
  split
  · rename_i h
    constructor
    · exact fun hy => Or.inr hy
    · rintro (rfl | hy) <;> assumption
  · simp [or_comm]

theorem self_mem_setAdd {s : List JStr} {x : JStr} : x ∈ setAdd s x :=
  mem_setAdd.mpr (Or.inl rfl)

theorem mem_setAdd_of_mem {s : List JStr} {x y : JStr} (h : y ∈ s) :
    y ∈ setAdd s x :=
  mem_setAdd.mpr (Or.inr h)

theorem setAdd_of_mem {s : List JStr} {x : JStr} (h : x ∈ s) :
    setAdd s x = s := by
  simp [setAdd, h]

theorem jsMapGet_jsMapSet {v : Type} (m : List (JStr × v)) (k : JStr) (val : v)
    (k' : JStr) :
    jsMapGet (jsMapSet m k val) k' = if k' = k then some val else jsMapGet m k' := by
  induction m with
  | nil =>
    by_cases h : k' = k
    · subst h
      simp [jsMapSet, jsMapGet]
    · simp [jsMapSet, jsMapGet, h, Ne.symm h]
  | cons e rest ih =>
    obtain ⟨k0, v0⟩ := e
    by_cases h0 : k0 = k
    · subst h0
      by_cases h : k' = k0
      · subst h
        simp [jsMapSet, jsMapGet]
      · simp [jsMapSet, jsMapGet, h, Ne.symm h]
    · by_cases h : k' = k0
      · subst h
        simp [jsMapSet, jsMapGet, h0, Ne.symm h0]
      · simp [jsMapSet, jsMapGet, h0, h, Ne.symm h, ih]

theorem jsMapSet_self {v : Type} {m : List (JStr × v)} {k : JStr} {val : v}
    (h : jsMapGet m k = some val) : jsMapSet m k val = m := by
  induction m with
  | nil => simp [jsMapGet] at h
  | cons e rest ih =>
    obtain ⟨k0, v0⟩ := e
    by_cases h0 : k0 = k
    · subst h0
      simp [jsMapGet] at h
      simp [jsMapSet, h]
    · simp [jsMapGet, h0] at h
      simp [jsMapSet, h0, ih h]

theorem jsMapGet_mem {v : Type} {m : List (JStr × v)} {k : JStr} {val : v}
    (h : jsMapGet m k = some val) : (k, val) ∈ m := by
  induction m with
  | nil => simp [jsMapGet] at h
  | cons e rest ih =>
    obtain ⟨k0, v0⟩ := e
    by_cases h0 : k0 = k
    · subst h0
      simp [jsMapGet] at h
      simp [h]
    · simp [jsMapGet, h0] at h
      exact List.mem_cons_of_mem _ (ih h)

theorem jsMapGet_addToMapSet (m : List (JStr × List JStr)) (k x k' : JStr) :
    jsMapGet (addToMapSet m k x) k' =
      if k' = k then some (setAdd ((jsMapGet m k).getD []) x)
      else jsMapGet m k' := by
  unfold addToMapSet
  cases h : jsMapGet m k <;> simp [jsMapGet_jsMapSet, h]

theorem addToMapSet_of_mem {m : List (JStr × List JStr)} {k x : JStr}
    {s : List JStr} (h : jsMapGet m k = some s) (hx : x ∈ s) :
    addToMapSet m k x = m := by
  simp only [addToMapSet, h, setAdd_of_mem hx]
  exact jsMapSet_self h

/-- Membership of an element in the set stored at a key: the shape of every
set-valued map statement below. -/
def smem (m : List (JStr × List JStr)) (k x : JStr) : Prop :=
  ∃ s, jsMapGet m k = some s ∧ x ∈ s

instance (m : List (JStr × List JStr)) (k x : JStr) : Decidable (smem m k x) := by
  unfold smem
  cases h : jsMapGet m k
  · exact isFalse (by simp [h])
  · rename_i s
    exact decidable_of_iff (x ∈ s) (by simp [h])

theorem smem_addToMapSet {m : List (JStr × List JStr)} {k x k' y : JStr} :
    smem (addToMapSet m k x) k' y ↔ (k' = k ∧ y = x) ∨ smem m k' y := by
  unfold smem
  rw [jsMapGet_addToMapSet]
  by_cases h : k' = k
  · subst h
    cases hg : jsMapGet m k' <;> simp [hg, mem_setAdd]
  · simp [h]

theorem smem_jsMapSet {m : List (JStr × List JStr)} {k : JStr} {v : List JStr}
    {k' y : JStr} :
    smem (jsMapSet m k v) k' y ↔ if k' = k then y ∈ v else smem m k' y := by
  unfold smem
  rw [jsMapGet_jsMapSet]
  by_cases h : k' = k <;> simp [h]

/-! ## Characterization of the base-package grouping -/

/-- The assignment rule as the specification states it: split on dots; fewer
than two segments means no base package; a standard first segment gives the
first two segments; otherwise the first `min 3 len` segments. -/
def claimedBase (packageName : JStr) : Option JStr :=
  let segments := splitOnDot packageName
  if segments.length < 2 then none
  else if [strL "java", strL "javax", strL "org", strL "com",
      strL "net"].contains segments.head! then
    some (joinDot (segments.take 2))
  else some (joinDot (segments.take (min 3 segments.length)))

theorem claimedBase_of_two_le {p : JStr} (h : 2 ≤ (splitOnDot p).length) :
    claimedBase p = some (codeBaseOf (splitOnDot p)) := by
  have h' : ¬(splitOnDot p).length < 2 := by omega
  unfold claimedBase codeBaseOf standardTopLevel
  simp only [h', if_false]
  split <;> rfl

theorem claimedBase_of_lt_two {p : JStr} (h : (splitOnDot p).length < 2) :
    claimedBase p = none := by
  simp [claimedBase, h]

theorem smem_foldl_gbpStep (pm : List (JStr × PackageInfo))
    (acc : List (JStr × List JStr)) (b p : JStr) :
    smem (pm.foldl gbpStep acc) b p ↔
      smem acc b p ∨ ((∃ info, (p, info) ∈ pm) ∧ claimedBase p = some b) := by
  induction pm generalizing acc with
  | nil => simp
  | cons e rest ih =>
    obtain ⟨q, info0⟩ := e
    rw [List.foldl_cons, ih]
    have hmem : (∃ info, (p, info) ∈ (q, info0) :: rest) ↔
        p = q ∨ ∃ info, (p, info) ∈ rest := by
      constructor
      · rintro ⟨i, hi⟩
        rcases List.mem_cons.mp hi with h1 | h1
        · exact Or.inl (congrArg Prod.fst h1)
        · exact Or.inr ⟨i, h1⟩
      · rintro (rfl | ⟨i, hi⟩)
        · exact ⟨info0, List.mem_cons_self _ _⟩
        · exact ⟨i, List.mem_cons_of_mem _ hi⟩
    by_cases h2 : 2 ≤ (splitOnDot q).length
    · have hq : claimedBase q = some (codeBaseOf (splitOnDot q)) :=
        claimedBase_of_two_le h2
      have hstep : gbpStep acc (q, info0) =
          addToMapSet acc (codeBaseOf (splitOnDot q)) q := by
        simp [gbpStep, h2]
      rw [hstep, smem_addToMapSet, hmem]
      constructor
      · rintro ((⟨rfl, rfl⟩ | hs) | hrest)
        · exact Or.inr ⟨Or.inl rfl, by rw [hq]⟩
        · exact Or.inl hs
        · exact Or.inr ⟨Or.inr hrest.1, hrest.2⟩
      · rintro (hs | ⟨rfl | hrest, hcb⟩)
        · exact Or.inl (Or.inr hs)
        · rw [hq] at hcb
          exact Or.inl (Or.inl ⟨(Option.some.inj hcb).symm, rfl⟩)
        · exact Or.inr ⟨hrest, hcb⟩
    · have hq : claimedBase q = none := claimedBase_of_lt_two (by omega)
      have hstep : gbpStep acc (q, info0) = acc := by
        simp [gbpStep, h2]
      rw [hstep, hmem]
      constructor
      · rintro (hs | hrest)
        · exact Or.inl hs
        · exact Or.inr ⟨Or.inr hrest.1, hrest.2⟩
      · rintro (hs | ⟨rfl | hrest, hcb⟩)
        · exact Or.inl hs
        · rw [hq] at hcb
          exact absurd hcb (by simp)
        · exact Or.inr ⟨hrest, hcb⟩

/-- A fine package is grouped under a base exactly when it is registered and
the claimed rule assigns it that base. -/
theorem smem_getBasePackages_iff (pm : List (JStr × PackageInfo)) (b p : JStr) :
    smem (getBasePackages pm) b p ↔
      (∃ info, (p, info) ∈ pm) ∧ claimedBase p = some b := by
  rw [getBasePackages, smem_foldl_gbpStep]
  simp [smem, jsMapGet]

/-! ## Lemmas about class-name decomposition -/

theorem jsLastIndexOf_of_not_mem {cs : JStr} {c : Char} (h : c ∉ cs) :
    jsLastIndexOf cs c = -1 := by
  induction cs with
  | nil => rfl
  | cons x rest ih =>
    have hx : x ≠ c := fun hxc => h (hxc ▸ List.mem_cons_self _ _)
    have hr : c ∉ rest := fun hc => h (List.mem_cons_of_mem _ hc)
    simp [jsLastIndexOf, ih hr, hx]

theorem jsLastIndexOf_append_cons {xs ys : JStr} (h : '.' ∉ ys) :
    jsLastIndexOf (xs ++ '.' :: ys) '.' = (xs.length : Int) := by
  induction xs with
  | nil => simp [jsLastIndexOf, jsLastIndexOf_of_not_mem h]
  | cons x xs ih =>
    have hnn : (0 : Int) ≤ (xs.length : Int) := Int.ofNat_nonneg _
    simp [jsLastIndexOf, ih, hnn]

theorem jsStartsWith_append_self (xs ys : JStr) :
    jsStartsWith (xs ++ ys) xs = true := by
  induction xs with
  | nil => simp [jsStartsWith]
  | cons x xs ih => simp [jsStartsWith, ih]

theorem unwrapName_of_not_sig {cs : JStr} (h : isArraySig cs = false) :
    unwrapName cs = cs := by
  simp [unwrapName, h]

theorem unwrapName_wrap (n : JStr) :
    unwrapName (strL "[L" ++ n ++ [';']) = n := by
  have hsig : isArraySig (strL "[L" ++ n ++ [';']) = true := by
    unfold isArraySig
    have h1 : jsStartsWith (strL "[L" ++ (n ++ [';'])) (strL "[L") = true :=
      jsStartsWith_append_self (strL "[L") (n ++ [';'])
    have h2 : (strL "[L" ++ n ++ [';']).getLast? = some ';' :=
      List.getLast?_concat _
    simp [h1, h2]
  unfold unwrapName
  rw [if_pos hsig]
  show (n ++ [';']).dropLast = n
  exact List.dropLast_concat

/-! ## Field-level description of processRecord -/

theorem processRecord_packageMap (s : ExtractorState) (r : DependencyRecord) :
    (processRecord s r).packageMap =
      addPackage
        (addPackage s.packageMap (getPackageName r.sourceClass)
          (getClassName r.sourceClass) false)
        (getPackageName r.targetClass) (getClassName r.targetClass)
        (!jsStartsWith r.targetClass r.artifactGroup) := by
  by_cases h : getPackageName r.sourceClass ≠ getPackageName r.targetClass <;>
    simp [processRecord, h]

theorem processRecord_dependencyMap (s : ExtractorState) (r : DependencyRecord) :
    (processRecord s r).dependencyMap =
      if getPackageName r.sourceClass ≠ getPackageName r.targetClass then
        addToMapSet s.dependencyMap (getPackageName r.sourceClass)
          (getPackageName r.targetClass)
      else s.dependencyMap := by
  by_cases h : getPackageName r.sourceClass ≠ getPackageName r.targetClass <;>
    simp [processRecord, h]

theorem processRecord_artifactMap (s : ExtractorState) (r : DependencyRecord) :
    (processRecord s r).artifactMap =
      addToMapSet
        (addToMapSet s.artifactMap r.artifactId (getPackageName r.sourceClass))
        r.artifactId (getPackageName r.targetClass) := by
  by_cases h : getPackageName r.sourceClass ≠ getPackageName r.targetClass <;>
    simp [processRecord, h]

theorem processRecord_basePackageDependencyMap (s : ExtractorState)
    (r : DependencyRecord) :
    (processRecord s r).basePackageDependencyMap = s.basePackageDependencyMap := by
  by_cases h : getPackageName r.sourceClass ≠ getPackageName r.targetClass <;>
    simp [processRecord, h]

theorem processRecord_libraryCounts (s : ExtractorState) (r : DependencyRecord) :
    (processRecord s r).libraryCounts =
      countSpecificLibraries s.libraryCounts s.librariesToCount r.targetClass := by
  by_cases h : getPackageName r.sourceClass ≠ getPackageName r.targetClass <;>
    simp [processRecord, h]

theorem processRecord_librariesToCount (s : ExtractorState) (r : DependencyRecord) :
    (processRecord s r).librariesToCount = s.librariesToCount := by
  by_cases h : getPackageName r.sourceClass ≠ getPackageName r.targetClass <;>
    simp [processRecord, h]

/-! ## Claims C1, C2, C5, C7, C8 -/

/-- C1: for every fine packageName in the Package Registry, the Base-Package
Grouper assigns it exactly per the stated rule: fewer than two dot-segments
means no base package; a standard first segment (java, javax, org, com, net)
gives the first two segments joined by dots; otherwise the first
min(3, number-of-segments) segments joined by dots. -/
theorem claim1_grouper_rule (pm : List (JStr × PackageInfo)) (p b : JStr) :
    smem (getBasePackages pm) b p ↔
      (∃ info, (p, info) ∈ pm) ∧ claimedBase p = some b :=
  smem_getBasePackages_iff pm b p

/-- A one-package registry holding the fine package
com.example.sample.component, used to settle C2. -/
def sampleComponentRegistry : List (JStr × PackageInfo) :=
  [(strL "com.example.sample.component",
    { name := strL "com.example.sample.component"
      classes := [strL "Widget"]
      isExternal := false })]

/-- C2 is false on the code: the registered fine package
com.example.sample.component is not grouped under com.example.sample
(its first segment com is in the standard list, so only two segments are
kept). -/
theorem claim2_counterexample :
    ¬ smem (getBasePackages sampleComponentRegistry)
      (strL "com.example.sample") (strL "com.example.sample.component") := by
  decide

/-- C2 amended: the grouper assigns the fine package
com.example.sample.component to the base package com.example (first two
segments, because com is a standard prefix), not to com.example.sample. -/
theorem claim2_amended :
    getBasePackages sampleComponentRegistry =
      [(strL "com.example", [strL "com.example.sample.component"])] := by
  decide

/-- C5 is false on the code at the input ".Foo": the simple class name is the
whole name rather than the substring "Foo" after the last dot, and the
package name is empty although the name does contain a dot. -/
theorem claim5_counterexample :
    getClassName (strL ".Foo") = strL ".Foo" ∧
    getClassName (strL ".Foo") ≠ strL "Foo" ∧
    getPackageName (strL ".Foo") = [] ∧
    '.' ∈ strL ".Foo" := by
  decide

/-- C5 amended: after unwrapping, when the last dot sits at a positive index
the name splits there into package prefix and simple-name suffix; when there
is no dot, or the only dot is the leading character (last dot at index 0),
the package name is empty and the simple class name is the whole unwrapped
name. -/
theorem claim5_amended :
    (∀ n xs ys, unwrapName n = xs ++ '.' :: ys → '.' ∉ ys →
        getPackageName n = xs ∧
        getClassName n = if xs = [] then unwrapName n else ys) ∧
    (∀ n, '.' ∉ unwrapName n →
        getPackageName n = [] ∧ getClassName n = unwrapName n) := by
  constructor
  · intro n xs ys h1 h2
    have hidx : jsLastIndexOf (unwrapName n) '.' = (xs.length : Int) := by
      rw [h1]
      exact jsLastIndexOf_append_cons h2
    by_cases hxs : xs = []
    · subst hxs
      constructor
      · simp [getPackageName, hidx]
      · simp [getClassName, hidx]
    · have hpos : (0 : Int) < (xs.length : Int) := by
        have := List.length_pos.mpr hxs
        omega
      have hidx' : jsLastIndexOf (xs ++ '.' :: ys) '.' = (xs.length : Int) :=
        jsLastIndexOf_append_cons h2
      constructor
      · simp only [getPackageName, h1, hidx', if_pos hpos, Int.toNat_natCast]
        exact List.take_left xs ('.' :: ys)
      · simp only [getClassName, h1, hidx', if_pos hpos, Int.toNat_natCast,
          if_neg hxs]
        rw [← List.drop_drop 1 xs.length (xs ++ '.' :: ys), List.drop_left]
        rfl
  · intro n h
    have hidx : jsLastIndexOf (unwrapName n) '.' = -1 :=
      jsLastIndexOf_of_not_mem h
    constructor
    · simp [getPackageName, hidx]
    · simp [getClassName, hidx]

/-- Witness for the amended C5 at the class name "a.b.C". -/
theorem claim5_amended_witness :
    getPackageName (strL "a.b.C") = strL "a.b" ∧
    getClassName (strL "a.b.C") = strL "C" := by
  have h := claim5_amended.1 (strL "a.b.C") (strL "a.b") (strL "C")
    (by decide) (by decide)
  refine ⟨h.1, ?_⟩
  rw [h.2]
  decide

/-- C7: registering a class into an already-present package only inserts the
simple class name into that package's class set; the stored isExternal flag
(and name) keep their first-registration values whatever flag the later
registration supplies, and every other key of the package map is untouched. -/
theorem claim7_first_write_wins (m : List (JStr × PackageInfo))
    (pkg cls : JStr) (ext : Bool) (info : PackageInfo)
    (h : jsMapGet m pkg = some info) :
    jsMapGet (addPackage m pkg cls ext) pkg =
      some { name := info.name, classes := setAdd info.classes cls,
             isExternal := info.isExternal } ∧
    ∀ q, q ≠ pkg → jsMapGet (addPackage m pkg cls ext) q = jsMapGet m q := by
  constructor
  · simp [addPackage, h, jsMapGet_jsMapSet]
  · intro q hq
    simp [addPackage, h, jsMapGet_jsMapSet, hq]

/-- Witness for C7: a later external registration into an existing internal
package only grows the class set and keeps the internal flag. -/
theorem claim7_first_write_wins_witness :
    jsMapGet
        (addPackage [(strL "a.b", ⟨strL "a.b", [strL "X"], false⟩)]
          (strL "a.b") (strL "Y") true)
        (strL "a.b") =
      some { name := strL "a.b", classes := setAdd [strL "X"] (strL "Y"),
             isExternal := false } :=
  (claim7_first_write_wins [(strL "a.b", ⟨strL "a.b", [strL "X"], false⟩)]
    (strL "a.b") (strL "Y") true ⟨strL "a.b", [strL "X"], false⟩ (by decide)).1

/-- C8: for any class name that is not itself array-wrapped, decomposing its
array-wrapped form yields the same package name and simple class name as
decomposing the name itself. -/
theorem claim8_array_unwrap (n : JStr) (h : isArraySig n = false) :
    getPackageName (strL "[L" ++ n ++ [';']) = getPackageName n ∧
    getClassName (strL "[L" ++ n ++ [';']) = getClassName n := by
  constructor <;>
    simp only [getPackageName, getClassName, unwrapName_wrap,
      unwrapName_of_not_sig h]

/-- Witness for C8 at the unwrapped name java.lang.String. -/
theorem claim8_array_unwrap_witness :
    isArraySig (strL "java.lang.String") = false ∧
    getPackageName (strL "[L" ++ strL "java.lang.String" ++ [';']) =
      getPackageName (strL "java.lang.String") ∧
    getClassName (strL "[L" ++ strL "java.lang.String" ++ [';']) =
      getClassName (strL "java.lang.String") :=
  ⟨by decide, claim8_array_unwrap (strL "java.lang.String") (by decide)⟩

/-! ## Claim C3: the end-to-end single-record scenario -/

/-- The input record of the end-to-end scenario. -/
def scenarioRecord : DependencyRecord :=
  { sourceClass := strL "com.example.sample.component.servicelocator.ejb.ServiceLocator"
    targetClass := strL "java.lang.Object"
    artifactId := strL "m1"
    artifactGroup := strL "com.example" }

/-- The extractor state after processing the scenario record with the default
keyword set. -/
def scenarioRun : ExtractorState := runExtractor defaultLibraries [scenarioRecord]

/-- C3 is false on the code: after the scenario run the alleged base package
com.example.sample exists neither in the grouping nor as a source in the
base-package dependency map. -/
theorem claim3_counterexample :
    jsMapGet (getBasePackages scenarioRun.packageMap)
        (strL "com.example.sample") = none ∧
    jsMapGet scenarioRun.basePackageDependencyMap
        (strL "com.example.sample") = none := by
  decide

/-- C3 amended: the scenario run yields exactly the base packages com.example
(internal, holding the fine source package) and java.lang (external), one
base-package dependency from com.example to java.lang, and every
library-keyword count equal to 0. -/
theorem claim3_amended :
    getBasePackages scenarioRun.packageMap =
      [(strL "com.example",
        [strL "com.example.sample.component.servicelocator.ejb"]),
       (strL "java.lang", [strL "java.lang"])] ∧
    (reportModel scenarioRun).internalBasePackages = [strL "com.example"] ∧
    (reportModel scenarioRun).externalBasePackages = [strL "java.lang"] ∧
    scenarioRun.basePackageDependencyMap =
      [(strL "com.example", [strL "java.lang"])] ∧
    (reportModel scenarioRun).libraryTable =
      [(strL "struts", 0), (strL "commons", 0), (strL "log4j", 0),
       (strL "cryptix", 0)] := by
  decide

/-! ## Claim C4: sources with empty rolled-up target sets -/

/-- A record whose fine edge a.b.c.d to a.b.c stays inside one base package
a.b.c, so the rollup records the source base with no targets. -/
def emptyTargetsRecord : DependencyRecord :=
  { sourceClass := strL "a.b.c.d.Foo"
    targetClass := strL "a.b.c.Bar"
    artifactId := strL "m"
    artifactGroup := strL "g" }

/-- The extractor state after processing `emptyTargetsRecord`. -/
def emptyTargetsRun : ExtractorState :=
  runExtractor defaultLibraries [emptyTargetsRecord]

/-- C4 is false on the code: this run associates the source base package
a.b.c with an empty target set, and the report's edge list shows that source
with no targets. -/
theorem claim4_counterexample :
    jsMapGet emptyTargetsRun.basePackageDependencyMap (strL "a.b.c") =
      some [] ∧
    (reportModel emptyTargetsRun).dependencyEdges = [(strL "a.b.c", [])] := by
  decide

/-! ## Structure of the run and the rollup -/

theorem build_packageMap (s : ExtractorState) :
    (buildBasePackageDependencies s).packageMap = s.packageMap := rfl

theorem build_dependencyMap (s : ExtractorState) :
    (buildBasePackageDependencies s).dependencyMap = s.dependencyMap := rfl

theorem build_libraryCounts (s : ExtractorState) :
    (buildBasePackageDependencies s).libraryCounts = s.libraryCounts := rfl

theorem build_librariesToCount (s : ExtractorState) :
    (buildBasePackageDependencies s).librariesToCount = s.librariesToCount := rfl

theorem build_basePackageDependencyMap (s : ExtractorState) :
    (buildBasePackageDependencies s).basePackageDependencyMap =
      rollupEdges (packageToBaseMap (getBasePackages s.packageMap))
        s.dependencyMap s.basePackageDependencyMap := rfl

theorem foldl_basePackageDependencyMap (records : List DependencyRecord)
    (s : ExtractorState) :
    (records.foldl processRecord s).basePackageDependencyMap =
      s.basePackageDependencyMap := by
  induction records generalizing s with
  | nil => rfl
  | cons r rest ih =>
    rw [List.foldl_cons, ih, processRecord_basePackageDependencyMap]

theorem hasKey_jsMapSet {v : Type} {m : List (JStr × v)} {key k : JStr}
    {val : v} (h : (jsMapGet (jsMapSet m key val) k).isSome = true) :
    k = key ∨ (jsMapGet m k).isSome = true := by
  rw [jsMapGet_jsMapSet] at h
  by_cases hk : k = key
  · exact Or.inl hk
  · rw [if_neg hk] at h
    exact Or.inr h

theorem hasKey_addToMapSet {m : List (JStr × List JStr)} {key x k : JStr}
    (h : (jsMapGet (addToMapSet m key x) k).isSome = true) :
    k = key ∨ (jsMapGet m k).isSome = true := by
  rw [jsMapGet_addToMapSet] at h
  by_cases hk : k = key
  · exact Or.inl hk
  · rw [if_neg hk] at h
    exact Or.inr h

theorem hasKey_rollupInner_foldl {p2b : List (JStr × JStr)} {sb : JStr}
    (tgts : List JStr) (acc : List (JStr × List JStr)) {k : JStr}
    (h : (jsMapGet (tgts.foldl (rollupInner p2b sb) acc) k).isSome = true) :
    k = sb ∨ (jsMapGet acc k).isSome = true := by
  induction tgts generalizing acc with
  | nil => exact Or.inr h
  | cons t rest ih =>
    rw [List.foldl_cons] at h
    rcases ih _ h with hk | hk
    · exact Or.inl hk
    · unfold rollupInner at hk
      cases hg : jsMapGet p2b t
      · rw [hg] at hk
        exact Or.inr hk
      · rename_i tb
        rw [hg] at hk
        have hk' : (jsMapGet (if sb ≠ tb then addToMapSet acc sb tb else acc)
            k).isSome = true := hk
        by_cases hne : sb ≠ tb
        · rw [if_pos hne] at hk'
          exact hasKey_addToMapSet hk'
        · rw [if_neg hne] at hk'
          exact Or.inr hk'

theorem hasKey_rollupStep {p2b : List (JStr × JStr)}
    {bpdm : List (JStr × List JStr)} {e : JStr × List JStr} {k : JStr}
    (h : (jsMapGet (rollupStep p2b bpdm e) k).isSome = true) :
    (jsMapGet bpdm k).isSome = true ∨ jsMapGet p2b e.1 = some k := by
  unfold rollupStep at h
  cases hg : jsMapGet p2b e.1
  · rw [hg] at h
    exact Or.inl h
  · rename_i sb
    rw [hg] at h
    simp only at h
    rcases hasKey_rollupInner_foldl e.2 _ h with rfl | hk
    · exact Or.inr rfl
    · by_cases hnone : (jsMapGet bpdm sb).isNone = true
      · rw [if_pos hnone] at hk
        rcases hasKey_jsMapSet hk with rfl | hk2
        · exact Or.inr rfl
        · exact Or.inl hk2
      · rw [if_neg hnone] at hk
        exact Or.inl hk

theorem hasKey_rollupEdges {p2b : List (JStr × JStr)}
    (dm : List (JStr × List JStr)) (init : List (JStr × List JStr)) {k : JStr}
    (h : (jsMapGet (rollupEdges p2b dm init) k).isSome = true) :
    (jsMapGet init k).isSome = true ∨
      ∃ p ts, (p, ts) ∈ dm ∧ jsMapGet p2b p = some k := by
  induction dm generalizing init with
  | nil => exact Or.inl h
  | cons e rest ih =>
    rw [rollupEdges, List.foldl_cons] at h
    rcases ih _ h with hk | ⟨p, ts, hmem, hp⟩
    · rcases hasKey_rollupStep hk with hk2 | hp
      · exact Or.inl hk2
      · exact Or.inr ⟨e.1, e.2, List.mem_cons_self _ _, hp⟩
    · exact Or.inr ⟨p, ts, List.mem_cons_of_mem _ hmem, hp⟩

/-- C4 amended: a source base package appears in the base-package dependency
map only when it is the base of some fine source package holding an entry in
the fine-grained edge map; its base-level target set may nevertheless be
empty. -/
theorem claim4_amended (libs : List JStr) (records : List DependencyRecord)
    (k : JStr)
    (h : (jsMapGet (runExtractor libs records).basePackageDependencyMap
        k).isSome = true) :
    ∃ p ts, (p, ts) ∈ (runExtractor libs records).dependencyMap ∧
      jsMapGet
          (packageToBaseMap
            (getBasePackages (runExtractor libs records).packageMap)) p =
        some k := by
  rw [runExtractor, build_basePackageDependencyMap,
    foldl_basePackageDependencyMap] at h
  rcases hasKey_rollupEdges _ _ h with hinit | ⟨p, ts, hmem, hp⟩
  · simp [initState, jsMapGet] at hinit
  · refine ⟨p, ts, ?_, ?_⟩
    · rw [runExtractor, build_dependencyMap]
      exact hmem
    · rw [runExtractor, build_packageMap]
      exact hp

/-- Witness for the amended C4 at the concrete run whose only rolled-up
source has an empty target set. -/
theorem claim4_amended_witness :
    (jsMapGet emptyTargetsRun.basePackageDependencyMap
        (strL "a.b.c")).isSome = true ∧
    ∃ p ts, (p, ts) ∈ emptyTargetsRun.dependencyMap ∧
      jsMapGet (packageToBaseMap (getBasePackages emptyTargetsRun.packageMap))
          p = some (strL "a.b.c") :=
  ⟨by decide,
    claim4_amended defaultLibraries [emptyTargetsRecord] (strL "a.b.c")
      (by decide)⟩

/-! ## Claim C6: no self-edges -/

/-- No key of a set-valued map is a member of its own target set. -/
def NoSelfMap (m : List (JStr × List JStr)) : Prop :=
  ∀ k ts, (k, ts) ∈ m → k ∉ ts

theorem mem_jsMapSet {v : Type} {m : List (JStr × v)} {key : JStr} {val : v}
    {e : JStr × v} (h : e ∈ jsMapSet m key val) : e = (key, val) ∨ e ∈ m := by
  induction m with
  | nil =>
    simp [jsMapSet] at h
    exact Or.inl h
  | cons e0 rest ih =>
    obtain ⟨k0, v0⟩ := e0
    by_cases h0 : k0 = key
    · subst h0
      rw [jsMapSet, if_pos rfl] at h
      rcases List.mem_cons.mp h with h1 | h1
      · exact Or.inl h1
      · exact Or.inr (List.mem_cons_of_mem _ h1)
    · rw [jsMapSet, if_neg h0] at h
      rcases List.mem_cons.mp h with h1 | h1
      · exact Or.inr (h1 ▸ List.mem_cons_self _ _)
      · rcases ih h1 with h2 | h2
        · exact Or.inl h2
        · exact Or.inr (List.mem_cons_of_mem _ h2)

theorem noSelfMap_addToMapSet {m : List (JStr × List JStr)} {key x : JStr}
    (hm : NoSelfMap m) (hkx : key ≠ x) : NoSelfMap (addToMapSet m key x) := by
  intro k ts hmem
  unfold addToMapSet at hmem
  cases hg : jsMapGet m key
  · rw [hg] at hmem
    rcases mem_jsMapSet hmem with he | he
    · obtain ⟨rfl, rfl⟩ := Prod.mk.injEq .. ▸ he
      intro hk
      rcases mem_setAdd.mp hk with rfl | hk2
      · exact hkx rfl
      · simp at hk2
    · exact hm _ _ he
  · rename_i s
    rw [hg] at hmem
    rcases mem_jsMapSet hmem with he | he
    · obtain ⟨rfl, rfl⟩ := Prod.mk.injEq .. ▸ he
      intro hk
      rcases mem_setAdd.mp hk with rfl | hk2
      · exact hkx rfl
      · exact hm _ _ (jsMapGet_mem hg) hk2
    · exact hm _ _ he

theorem noSelfMap_jsMapSet_nil {m : List (JStr × List JStr)} {key : JStr}
    (hm : NoSelfMap m) : NoSelfMap (jsMapSet m key []) := by
  intro k ts hmem
  rcases mem_jsMapSet hmem with he | he
  · obtain ⟨rfl, rfl⟩ := Prod.mk.injEq .. ▸ he
    simp
  · exact hm _ _ he

theorem noSelfMap_dependencyMap_foldl (records : List DependencyRecord)
    (s : ExtractorState) (hm : NoSelfMap s.dependencyMap) :
    NoSelfMap ((records.foldl processRecord s).dependencyMap) := by
  induction records generalizing s with
  | nil => exact hm
  | cons r rest ih =>
    rw [List.foldl_cons]
    apply ih
    rw [processRecord_dependencyMap]
    by_cases h : getPackageName r.sourceClass ≠ getPackageName r.targetClass
    · rw [if_pos h]
      exact noSelfMap_addToMapSet hm h
    · rw [if_neg h]
      exact hm

theorem noSelfMap_rollupInner_foldl {p2b : List (JStr × JStr)} {sb : JStr}
    (tgts : List JStr) (acc : List (JStr × List JStr))
    (hacc : NoSelfMap acc) :
    NoSelfMap (tgts.foldl (rollupInner p2b sb) acc) := by
  induction tgts generalizing acc with
  | nil => exact hacc
  | cons t rest ih =>
    rw [List.foldl_cons]
    apply ih
    unfold rollupInner
    cases hg : jsMapGet p2b t
    · exact hacc
    · rename_i tb
      show NoSelfMap (if sb ≠ tb then addToMapSet acc sb tb else acc)
      by_cases hne : sb ≠ tb
      · rw [if_pos hne]
        exact noSelfMap_addToMapSet hacc hne
      · rw [if_neg hne]
        exact hacc

theorem noSelfMap_rollupEdges {p2b : List (JStr × JStr)}
    (dm : List (JStr × List JStr)) (init : List (JStr × List JStr))
    (hinit : NoSelfMap init) : NoSelfMap (rollupEdges p2b dm init) := by
  induction dm generalizing init with
  | nil => exact hinit
  | cons e rest ih =>
    rw [rollupEdges, List.foldl_cons]
    apply ih
    unfold rollupStep
    cases hg : jsMapGet p2b e.1
    · exact hinit
    · rename_i sb
      simp only
      apply noSelfMap_rollupInner_foldl
      by_cases hnone : (jsMapGet init sb).isNone = true
      · rw [if_pos hnone]
        exact noSelfMap_jsMapSet_nil hinit
      · rw [if_neg hnone]
        exact hinit

/-- C6: for every run, the fine-grained dependency edge map never relates a
package to itself, and the rolled-up base-package dependency map never lists
a base package among its own targets. -/
theorem claim6_no_self_edges (libs : List JStr)
    (records : List DependencyRecord) (k : JStr) (ts : List JStr)
    (h : (k, ts) ∈ (runExtractor libs records).dependencyMap ∨
        (k, ts) ∈ (runExtractor libs records).basePackageDependencyMap) :
    k ∉ ts := by
  have hfine : NoSelfMap ((List.foldl processRecord (initState libs)
      records).dependencyMap) := by
    apply noSelfMap_dependencyMap_foldl
    intro a b hab
    simp [initState] at hab
  rcases h with h | h
  · rw [runExtractor, build_dependencyMap] at h
    exact hfine _ _ h
  · rw [runExtractor, build_basePackageDependencyMap,
      foldl_basePackageDependencyMap] at h
    refine noSelfMap_rollupEdges _ _ ?_ _ _ h
    intro a b hab
    simp [initState] at hab

/-- Witness for C6 at the scenario run: the only fine edge present is not a
self-edge. -/
theorem claim6_no_self_edges_witness :
    (strL "com.example.sample.component.servicelocator.ejb",
        [strL "java.lang"]) ∈ scenarioRun.dependencyMap ∧
    strL "com.example.sample.component.servicelocator.ejb" ∉
      [strL "java.lang"] :=
  ⟨by decide,
    claim6_no_self_edges defaultLibraries [scenarioRecord]
      (strL "com.example.sample.component.servicelocator.ejb")
      [strL "java.lang"] (Or.inl (by decide))⟩

/-! ## Claim C9: per-record idempotence -/

theorem smem_addToMapSet_self (m : List (JStr × List JStr)) (k x : JStr) :
    smem (addToMapSet m k x) k x :=
  smem_addToMapSet.mpr (Or.inl ⟨rfl, rfl⟩)

theorem smem_addToMapSet_mono {m : List (JStr × List JStr)} {k' y : JStr}
    (k x : JStr) (h : smem m k' y) : smem (addToMapSet m k x) k' y :=
  smem_addToMapSet.mpr (Or.inr h)

theorem addToMapSet_of_smem {m : List (JStr × List JStr)} {k x : JStr}
    (h : smem m k x) : addToMapSet m k x = m := by
  obtain ⟨s, hg, hx⟩ := h
  exact addToMapSet_of_mem hg hx

theorem addToMapSet_pair_idem (a : List (JStr × List JStr)) (k sp tp : JStr) :
    addToMapSet (addToMapSet (addToMapSet (addToMapSet a k sp) k tp) k sp)
        k tp =
      addToMapSet (addToMapSet a k sp) k tp := by
  have h1 : smem (addToMapSet (addToMapSet a k sp) k tp) k sp :=
    smem_addToMapSet_mono k tp (smem_addToMapSet_self a k sp)
  have h2 : smem (addToMapSet (addToMapSet a k sp) k tp) k tp :=
    smem_addToMapSet_self _ k tp
  rw [addToMapSet_of_smem h1, addToMapSet_of_smem h2]

theorem addPackage_of_mem_classes {m : List (JStr × PackageInfo)}
    {p c : JStr} {info : PackageInfo} (e : Bool)
    (h : jsMapGet m p = some info) (hc : c ∈ info.classes) :
    addPackage m p c e = m := by
  simp only [addPackage, h, setAdd_of_mem hc]
  exact jsMapSet_self h

theorem addPackage_eq_of_none {m : List (JStr × PackageInfo)} {p : JStr}
    (c : JStr) (e : Bool) (hg : jsMapGet m p = none) :
    addPackage m p c e =
      jsMapSet m p { name := p, classes := setAdd [] c, isExternal := e } := by
  unfold addPackage
  rw [hg]

theorem addPackage_eq_of_some {m : List (JStr × PackageInfo)} {p : JStr}
    {info : PackageInfo} (c : JStr) (e : Bool)
    (hg : jsMapGet m p = some info) :
    addPackage m p c e =
      jsMapSet m p { info with classes := setAdd info.classes c } := by
  unfold addPackage
  rw [hg]

theorem addPackage_get_self (m : List (JStr × PackageInfo)) (p c : JStr)
    (e : Bool) :
    ∃ info, jsMapGet (addPackage m p c e) p = some info ∧ c ∈ info.classes := by
  cases hg : jsMapGet m p with
  | none =>
    rw [addPackage_eq_of_none c e hg]
    refine ⟨{ name := p, classes := setAdd [] c, isExternal := e }, ?_, ?_⟩
    · rw [jsMapGet_jsMapSet, if_pos rfl]
    · show c ∈ setAdd [] c
      exact self_mem_setAdd
  | some info =>
    rw [addPackage_eq_of_some c e hg]
    refine ⟨{ info with classes := setAdd info.classes c }, ?_, ?_⟩
    · rw [jsMapGet_jsMapSet, if_pos rfl]
    · show c ∈ setAdd info.classes c
      exact self_mem_setAdd

theorem addPackage_classes_mono {m : List (JStr × PackageInfo)}
    {q c' : JStr} {info : PackageInfo} (p c : JStr) (e : Bool)
    (h : jsMapGet m q = some info) (hc : c' ∈ info.classes) :
    ∃ info', jsMapGet (addPackage m p c e) q = some info' ∧
      c' ∈ info'.classes := by
  by_cases hq : q = p
  · subst hq
    rw [addPackage_eq_of_some c e h]
    refine ⟨{ info with classes := setAdd info.classes c }, ?_, ?_⟩
    · rw [jsMapGet_jsMapSet, if_pos rfl]
    · show c' ∈ setAdd info.classes c
      exact mem_setAdd_of_mem hc
  · cases hg : jsMapGet m p with
    | none =>
      rw [addPackage_eq_of_none c e hg]
      refine ⟨info, ?_, hc⟩
      rw [jsMapGet_jsMapSet, if_neg hq]
      exact h
    | some i0 =>
      rw [addPackage_eq_of_some c e hg]
      refine ⟨info, ?_, hc⟩
      rw [jsMapGet_jsMapSet, if_neg hq]
      exact h

theorem addPackage_pair_idem (pm : List (JStr × PackageInfo))
    (sp sc tp tc : JStr) (e1 e2 : Bool) :
    addPackage (addPackage (addPackage (addPackage pm sp sc e1) tp tc e2)
        sp sc e1) tp tc e2 =
      addPackage (addPackage pm sp sc e1) tp tc e2 := by
  obtain ⟨i1, hg1, hc1⟩ := addPackage_get_self pm sp sc e1
  obtain ⟨i2, hg2, hc2⟩ := addPackage_classes_mono tp tc e2 hg1 hc1
  rw [addPackage_of_mem_classes e1 hg2 hc2]
  obtain ⟨j, hgj, hcj⟩ := addPackage_get_self (addPackage pm sp sc e1) tp tc e2
  rw [addPackage_of_mem_classes e2 hgj hcj]

theorem smem_countStep_mono {c : List (JStr × List JStr)} {k y : JStr}
    (lc tc lib : JStr) (h : smem c k y) : smem (countStep lc tc c lib) k y := by
  unfold countStep
  by_cases hinc : jsIncludes lc lib = true
  · rw [if_pos hinc]
    exact smem_addToMapSet_mono _ _ h
  · rw [if_neg hinc]
    exact h

theorem smem_foldl_countStep_mono {c : List (JStr × List JStr)} {k y : JStr}
    (lc tc : JStr) (libs : List JStr) (h : smem c k y) :
    smem (libs.foldl (countStep lc tc) c) k y := by
  induction libs generalizing c with
  | nil => exact h
  | cons l ls ih =>
    rw [List.foldl_cons]
    exact ih (smem_countStep_mono lc tc l h)

theorem smem_foldl_countStep (lc tc : JStr) (libs : List JStr)
    (c : List (JStr × List JStr)) :
    ∀ lib ∈ libs, jsIncludes lc lib = true →
      smem (libs.foldl (countStep lc tc) c) lib tc := by
  induction libs generalizing c with
  | nil => intro lib h
           exact absurd h (List.not_mem_nil _)
  | cons l ls ih =>
    intro lib hmem hinc
    rw [List.foldl_cons]
    rcases List.mem_cons.mp hmem with rfl | hmem'
    · apply smem_foldl_countStep_mono
      unfold countStep
      rw [if_pos hinc]
      exact smem_addToMapSet_self _ _ _
    · exact ih _ lib hmem' hinc

theorem foldl_countStep_noop (lc tc : JStr) (libs : List JStr)
    (c : List (JStr × List JStr))
    (h : ∀ lib ∈ libs, jsIncludes lc lib = true → smem c lib tc) :
    libs.foldl (countStep lc tc) c = c := by
  induction libs with
  | nil => rfl
  | cons l ls ih =>
    rw [List.foldl_cons]
    have hstep : countStep lc tc c l = c := by
      unfold countStep
      by_cases hinc : jsIncludes lc l = true
      · rw [if_pos hinc]
        exact addToMapSet_of_smem (h l (List.mem_cons_self _ _) hinc)
      · rw [if_neg hinc]
    rw [hstep]
    exact ih fun lib hmem hinc => h lib (List.mem_cons_of_mem _ hmem) hinc

theorem countSpecificLibraries_idem (counts : List (JStr × List JStr))
    (libs : List JStr) (tc : JStr) :
    countSpecificLibraries (countSpecificLibraries counts libs tc) libs tc =
      countSpecificLibraries counts libs tc := by
  unfold countSpecificLibraries
  exact foldl_countStep_noop _ _ _ _
    (smem_foldl_countStep (tc.map Char.toLower) tc libs counts)

theorem ExtractorState.eqFields {a b : ExtractorState}
    (h1 : a.packageMap = b.packageMap) (h2 : a.dependencyMap = b.dependencyMap)
    (h3 : a.artifactMap = b.artifactMap)
    (h4 : a.basePackageDependencyMap = b.basePackageDependencyMap)
    (h5 : a.libraryCounts = b.libraryCounts)
    (h6 : a.librariesToCount = b.librariesToCount) : a = b := by
  cases a
  cases b
  simp_all

/-- C9: processing the same decoded record twice from any state leaves the
whole extractor state exactly as processing it once: every insert performed
by processRecord is a set-style insert. -/
theorem claim9_process_record_idempotent (s : ExtractorState)
    (r : DependencyRecord) :
    processRecord (processRecord s r) r = processRecord s r := by
  apply ExtractorState.eqFields
  · rw [processRecord_packageMap, processRecord_packageMap]
    exact addPackage_pair_idem s.packageMap (getPackageName r.sourceClass)
      (getClassName r.sourceClass) (getPackageName r.targetClass)
      (getClassName r.targetClass) false
      (!jsStartsWith r.targetClass r.artifactGroup)
  · rw [processRecord_dependencyMap, processRecord_dependencyMap]
    by_cases h : getPackageName r.sourceClass ≠ getPackageName r.targetClass
    · rw [if_pos h, if_pos h]
      exact addToMapSet_of_smem (smem_addToMapSet_self _ _ _)
    · rw [if_neg h, if_neg h]
  · rw [processRecord_artifactMap, processRecord_artifactMap]
    exact addToMapSet_pair_idem s.artifactMap r.artifactId
      (getPackageName r.sourceClass) (getPackageName r.targetClass)
  · rw [processRecord_basePackageDependencyMap,
      processRecord_basePackageDependencyMap]
  · rw [processRecord_libraryCounts, processRecord_libraryCounts,
      processRecord_librariesToCount]
    exact countSpecificLibraries_idem s.libraryCounts s.librariesToCount
      r.targetClass
  · rw [processRecord_librariesToCount, processRecord_librariesToCount]

/-! ## Claim C10: the report never depends on artifactId -/

/-- Equality of all extractor-state components except the artifact map (the
only component artifactId ever reaches). -/
def coreEq (a b : ExtractorState) : Prop :=
  a.packageMap = b.packageMap ∧ a.dependencyMap = b.dependencyMap ∧
  a.basePackageDependencyMap = b.basePackageDependencyMap ∧
  a.libraryCounts = b.libraryCounts ∧ a.librariesToCount = b.librariesToCount

/-- Two record sequences equal except possibly in each record's artifactId. -/
def RecordsAgreeExceptArtifact (rs1 rs2 : List DependencyRecord) : Prop :=
  List.Forall₂
    (fun r1 r2 => r1.sourceClass = r2.sourceClass ∧
      r1.targetClass = r2.targetClass ∧ r1.artifactGroup = r2.artifactGroup)
    rs1 rs2

theorem coreEq_processRecord {a b : ExtractorState} (h : coreEq a b)
    {r1 r2 : DependencyRecord} (hs : r1.sourceClass = r2.sourceClass)
    (ht : r1.targetClass = r2.targetClass)
    (hg : r1.artifactGroup = r2.artifactGroup) :
    coreEq (processRecord a r1) (processRecord b r2) := by
  obtain ⟨h1, h2, h3, h4, h5⟩ := h
  refine ⟨?_, ?_, ?_, ?_, ?_⟩
  · rw [processRecord_packageMap, processRecord_packageMap, h1, hs, ht, hg]
  · rw [processRecord_dependencyMap, processRecord_dependencyMap, h2, hs, ht]
  · rw [processRecord_basePackageDependencyMap,
      processRecord_basePackageDependencyMap, h3]
  · rw [processRecord_libraryCounts, processRecord_libraryCounts, h4, h5, ht]
  · rw [processRecord_librariesToCount, processRecord_librariesToCount, h5]

theorem coreEq_foldl {rs1 rs2 : List DependencyRecord}
    (h : RecordsAgreeExceptArtifact rs1 rs2) {a b : ExtractorState}
    (hab : coreEq a b) :
    coreEq (rs1.foldl processRecord a) (rs2.foldl processRecord b) := by
  induction h generalizing a b with
  | nil => exact hab
  | cons hr _ ih =>
    rw [List.foldl_cons, List.foldl_cons]
    exact ih (coreEq_processRecord hab hr.1 hr.2.1 hr.2.2)

theorem coreEq_build {a b : ExtractorState} (h : coreEq a b) :
    coreEq (buildBasePackageDependencies a) (buildBasePackageDependencies b) := by
  obtain ⟨h1, h2, h3, h4, h5⟩ := h
  refine ⟨?_, ?_, ?_, ?_, ?_⟩
  · rw [build_packageMap, build_packageMap, h1]
  · rw [build_dependencyMap, build_dependencyMap, h2]
  · rw [build_basePackageDependencyMap, build_basePackageDependencyMap,
      h1, h2, h3]
  · rw [build_libraryCounts, build_libraryCounts, h4]
  · rw [build_librariesToCount, build_librariesToCount, h5]

theorem reportModel_coreEq {a b : ExtractorState} (h : coreEq a b) :
    reportModel a = reportModel b := by
  obtain ⟨h1, _h2, h3, h4, _h5⟩ := h
  unfold reportModel
  rw [h1, h3, h4]

/-- C10: the generated report is independent of the artifactId fields: two
input sequences equal except in each record's artifactId produce identical
report models, because artifactId only feeds the artifact map, which no
report-producing operation reads. -/
theorem claim10_artifactId_independent (libs : List JStr)
    (rs1 rs2 : List DependencyRecord)
    (h : RecordsAgreeExceptArtifact rs1 rs2) :
    reportModel (runExtractor libs rs1) = reportModel (runExtractor libs rs2) :=
  reportModel_coreEq
    (coreEq_build (coreEq_foldl h ⟨rfl, rfl, rfl, rfl, rfl⟩))

/-- Witness for C10: the scenario record with two different artifactIds
produces the same report model. -/
theorem claim10_artifactId_independent_witness :
    RecordsAgreeExceptArtifact [scenarioRecord]
      [{ scenarioRecord with artifactId := strL "other-module" }] ∧
    reportModel (runExtractor defaultLibraries [scenarioRecord]) =
      reportModel (runExtractor defaultLibraries
        [{ scenarioRecord with artifactId := strL "other-module" }]) := by
  have hagree : RecordsAgreeExceptArtifact [scenarioRecord]
      [{ scenarioRecord with artifactId := strL "other-module" }] :=
    List.Forall₂.cons ⟨rfl, rfl, rfl⟩ List.Forall₂.nil
  exact ⟨hagree,
    claim10_artifactId_independent defaultLibraries [scenarioRecord]
      [{ scenarioRecord with artifactId := strL "other-module" }] hagree⟩
